import Mathlib

/-!
# A shallow embedding of `src/formatter.ts` (futoji)

The source is a delimiter-driven inline formatter.  Strings are modelled as
`List Char` (the scanner treats the text as a sequence of code points and
indexes it with integers), positions as `Nat`.  The JavaScript string
primitives the scanner uses (`startsWith` with an offset, `indexOf` with a
start index, `slice`) are reproduced first, including their clamping
behaviour at out-of-range indices.

The two `while` loops of the source (`format`'s scan loop and the padding
loop inside it, and `formatRegex`'s scan loop) have no termination guarantee
for degenerate registries (an empty closing delimiter makes the source spin
forever), so every loop takes explicit fuel and returns `none` when the fuel
runs out; on any input where the source terminates, a large enough fuel
yields `some` of the source's answer.
-/

/-- Text as the scanner sees it: a sequence of code points. -/
abbrev Str := List Char

/-- JS `text.startsWith(pat, i)`: `pat` occurs in `text` exactly at index `i`.
For `i` past the end only the empty pattern matches, as in JS. -/
def startsWithAt (text pat : Str) (i : Nat) : Bool :=
  pat.isPrefixOf (text.drop i)

/-- Scan a suffix of the text for the first occurrence of `pat`; `j` is the
absolute index of the head of the suffix. -/
def findIdx (pat : Str) : Str → Nat → Option Nat
  | [], _ => none
  | ch :: rest, j =>
    if pat.isPrefixOf (ch :: rest) then some j else findIdx pat rest (j + 1)

/-- JS `text.indexOf(pat, i)`, with `none` for `-1`: the least `j ≥ i` at
which `pat` occurs.  An empty pattern is found at `min i len`, as in JS. -/
def jsIndexOf (text pat : Str) (i : Nat) : Option Nat :=
  if pat.isEmpty then some (min i text.length) else findIdx pat (text.drop i) i

/-- JS `text.slice(a, b)` for `0 ≤ a, b`: clamps at both ends. -/
def sliceL (text : Str) (a b : Nat) : Str :=
  (text.drop a).take (b - a)

/-- A registered transformer with literal (string) delimiters, the case the
fast path `Formatter.format` handles.  Field for field the source's
`Transformer` interface; `open` is a Lean keyword, hence `open_`. -/
structure Transformer where
  name : Str
  open_ : Str
  close : Str
  recursive : Bool
  padding : Bool
  validate : Str → Bool
  transformer : Str → Str

/-! ## Registration (`Formatter.addTransformer`)

`addTransformer` builds its entry with `Object.assign` over a defaults
object; nothing is checked, so a field the caller omitted can come out
`undefined`.  The raw entry type below keeps those fields optional exactly
where the source can leave them undefined. -/

/-- The caller's options object.  `none` is an absent property (JS
`Object.assign` only copies properties that are present). -/
structure TransformerOptions where
  name : Str
  symbol : Option Str := none
  openO : Option Str := none
  closeO : Option Str := none
  recursiveO : Option Bool := none
  paddingO : Option Bool := none
  validateO : Option (Str → Bool) := none
  transformerO : Option (Str → Str) := none

/-- What `addTransformer` actually pushes: `open`, `close` and `transformer`
can be `undefined` (`none`) because nothing validates the options. -/
structure RawTransformer where
  name : Str
  openR : Option Str
  closeR : Option Str
  recursive : Bool
  padding : Bool
  validate : Str → Bool
  transformerR : Option (Str → Str)

/-- JS `a || b` on string-or-undefined values: an empty string is falsy. -/
def jsOrStr (a b : Option Str) : Option Str :=
  match a with
  | some s => if s.isEmpty then b else some s
  | none => b

/-- `Formatter.addTransformer`: append the merged entry.  The defaults object
is `{recursive: true, open: symbol, close: symbol || open, padding: true,
validate: _ => true}` and `Object.assign` lets every present option field
override it; there is no error path. -/
def addTransformer (p : TransformerOptions) (ts : List RawTransformer) :
    List RawTransformer :=
  ts ++ [{ name := p.name
           openR := p.openO <|> p.symbol
           closeR := p.closeO <|> jsOrStr p.symbol p.openO
           recursive := p.recursiveO.getD true
           padding := p.paddingO.getD true
           validate := p.validateO.getD (fun _ => true)
           transformerR := p.transformerO }]

/-! ## The literal fast path (`Formatter.format`)

The scan loop holds `pos`, `lastSlice` and the fragment list `io`.  At each
step it filters the registry for transformers whose `open` occurs exactly at
`pos` and runs `matches.some(...)` over them.  Crucially the `some` callback
mutates `pos` even when it answers `false`, so one attempt is a function
from a position to a verdict *and* a new position. -/

/-- `untilSymbol`: move to the next occurrence of `symbol` at or after `pos`,
or to the end of the text when there is none. -/
def untilSymbol (text sym : Str) (pos : Nat) : Nat :=
  (jsIndexOf text sym pos).getD text.length

/-- The padding loop: while another closer starts right after the found one,
skip past it (`pos += open.length + 1`) and search for the closer again.
Runs forever in the source when `close` is empty, hence the fuel. -/
def padLoop (fuel : Nat) (text o c : Str) (pos : Nat) : Option Nat :=
  match fuel with
  | 0 => none
  | fuel + 1 =>
    if startsWithAt text c (pos + 1) then
      padLoop fuel text o c (untilSymbol text c (pos + o.length + 1))
    else
      some pos

/-- Locate the closing delimiter for an attempt that consumed `open` at
`fromPos`: `untilSymbol(close)` followed by the padding loop when the
transformer asks for padding. -/
def findClose (pf : Nat) (text : Str) (t : Transformer) (fromPos : Nat) :
    Option Nat :=
  if t.padding then
    padLoop pf text t.open_ t.close (untilSymbol text t.close fromPos)
  else
    some (untilSymbol text t.close fromPos)

/-- Verdict of one attempt of the `matches.some` callback: `hit` carries the
rewritten fragment (before the optional recursive re-format), the
transformer's `recursive` flag, and the cursor after the closing delimiter;
`miss` carries the (possibly moved) cursor the callback leaves behind. -/
inductive TryRes where
  | hit (frag : Str) (recFlag : Bool) (newPos : Nat)
  | miss (pos : Nat)
deriving DecidableEq, Repr

/-- One transformer's attempt at the current cursor, the body of the
`matches.some` callback (literal-delimiter branch).  Mirrors the source: on
a `validate` veto the cursor is reset to `fromPos` (just past `open`); on a
failed `accept(close)` (the unterminated case) the cursor stays wherever the
closer search stopped. -/
def attempt (pf : Nat) (text : Str) (t : Transformer) (pos : Nat) :
    Option TryRes :=
  if startsWithAt text t.open_ pos then
    match findClose pf text t (pos + t.open_.length) with
    | none => none
    | some toPos =>
      if t.validate (sliceL text (pos + t.open_.length) toPos) then
        if startsWithAt text t.close toPos then
          some (TryRes.hit
            (t.transformer (sliceL text (pos + t.open_.length) toPos))
            t.recursive (toPos + t.close.length))
        else
          some (TryRes.miss toPos)
      else
        some (TryRes.miss (pos + t.open_.length))
  else
    some (TryRes.miss pos)

/-- `matches.some(...)`: try the candidates in order, threading the mutated
cursor from each failed attempt into the next one. -/
def tryCands (pf : Nat) (text : Str) : List Transformer → Nat → Option TryRes
  | [], pos => some (TryRes.miss pos)
  | t :: rest, pos =>
    match attempt pf text t pos with
    | none => none
    | some (TryRes.hit f r n) => some (TryRes.hit f r n)
    | some (TryRes.miss p) => tryCands pf text rest p

/-- The candidate filter: transformers whose (string) `open` occurs in the
text exactly at the cursor. -/
def candidatesAt (ts : List Transformer) (text : Str) (pos : Nat) :
    List Transformer :=
  ts.filter (fun t => jsIndexOf text t.open_ pos == some pos)

/-- The scan loop of `Formatter.format`.  On a hit the fragment is pushed
(after a recursive re-format when the transformer is recursive) and both
`pos` and `lastSlice` jump past the closer; otherwise the cursor advances by
one and the pending slice is flushed (`slice_to_io`).  The padding loop gets
`text.length + 2` fuel, which reproduces the source exactly whenever the
closer is nonempty (the loop's cursor strictly grows and is bounded by the
text length); an empty closer spins forever in the source and yields `none`
here. -/
def formatGo : Nat → List Transformer → Str → Nat → Nat → List Str →
    Option Str
  | 0, _, _, _, _, _ => none
  | fuel + 1, ts, text, pos, lastSlice, io =>
    if pos < text.length then
      match tryCands (text.length + 2) text (candidatesAt ts text pos) pos with
      | none => none
      | some (TryRes.hit frag r newPos) =>
        match (if r then formatGo fuel ts frag 0 0 [] else some frag) with
        | none => none
        | some parsed => formatGo fuel ts text newPos newPos (io ++ [parsed])
      | some (TryRes.miss p) =>
        formatGo fuel ts text (p + 1) (p + 1)
          (io ++ [sliceL text lastSlice (p + 1)])
    else
      some io.flatten

/-- `Formatter.format text`, given enough fuel. -/
def format (fuel : Nat) (ts : List Transformer) (text : Str) : Option Str :=
  formatGo fuel ts text 0 0 []

/-- `format` on Lean string literals, for readable statements. -/
def formatS (fuel : Nat) (ts : List Transformer) (s : String) : Option String :=
  (format fuel ts s.data).map String.mk

/-! ## Concrete registries used by the spec's scenarios -/

/-- The spec's italic transformer: `symbol="*"`, defaults elsewhere. -/
def italic : Transformer :=
  { name := "italic".data, open_ := "*".data, close := "*".data
    recursive := true, padding := true
    validate := fun _ => true
    transformer := fun s => "<i>".data ++ s ++ "</i>".data }

/-- The spec's bold transformer: `symbol="**"`, registered before italic. -/
def bold : Transformer :=
  { name := "bold".data, open_ := "**".data, close := "**".data
    recursive := true, padding := true
    validate := fun _ => true
    transformer := fun s => "<b>".data ++ s ++ "</b>".data }

/-- The spec's code transformer: backtick symbol, `recursive=false`. -/
def codeT : Transformer :=
  { name := "code".data, open_ := "`".data, close := "`".data
    recursive := false, padding := true
    validate := fun _ => true
    transformer := fun s => "<code>".data ++ s ++ "</code>".data }

/-- Italic with the rewrite redirected at exactly one span: it answers `"X"`
on the span `"a**b"` and agrees with `italic` everywhere else.  Comparing
runs under `italic` and `italicX` makes "the rewrite callback was applied to
`a**b`" observable in a pure embedding. -/
def italicX : Transformer :=
  { name := "italic".data, open_ := "*".data, close := "*".data
    recursive := true, padding := true
    validate := fun _ => true
    transformer := fun s =>
      if s = "a**b".data then "X".data else "<i>".data ++ s ++ "</i>".data }

/-- A second literal transformer (`symbol="x"`) to watch whether positions
skipped by a failed attempt are ever revisited. -/
def exT : Transformer :=
  { name := "ex".data, open_ := "x".data, close := "x".data
    recursive := false, padding := true
    validate := fun _ => true
    transformer := fun s => "[".data ++ s ++ "]".data }

/-- Italic whose `validate` vetoes everything. -/
def vetoStar : Transformer :=
  { name := "veto".data, open_ := "*".data, close := "*".data
    recursive := false, padding := true
    validate := fun _ => false
    transformer := fun s => s }

/-- `open="aa"`, `close="Z"`, vetoing validator: its failed attempt leaves
the cursor two characters in. -/
def vetoAA : Transformer :=
  { name := "vetoAA".data, open_ := "aa".data, close := "Z".data
    recursive := false, padding := true
    validate := fun _ => false
    transformer := fun s => s }

/-- `open="a"`, `close="c"`: fires at the position the vetoed attempt leaves
behind. -/
def brk : Transformer :=
  { name := "brk".data, open_ := "a".data, close := "c".data
    recursive := false, padding := true
    validate := fun _ => true
    transformer := fun s => "[".data ++ s ++ "]".data }

/-! ## The pattern slow path (`Formatter.formatRegex`)

`formatRegex` builds, at every cursor position and for every transformer, a
regular expression `^OPEN(.+?)CLOSE` and runs it against the tail of the
text.  Delimiters pass through `normalizePattern` first.  The embedding
covers the case the claims exercise: delimiters that are literal strings
whose normalized source still denotes exactly that literal (single
characters, and metacharacter-free literals), for which the anchored match
is: the open delimiter at the cursor, then the shortest nonempty run of
non-line-terminator characters, then the close delimiter. -/

/-- `normalizePattern` on a literal string: the source's
`pattern.replace(/(.)/, "\\$1")`.  The regex has no `g` flag and `.` skips
line terminators, so exactly the *first* non-line-terminator character gets
a backslash. -/
def normalizePattern : Str → Str
  | [] => []
  | ch :: rest =>
    if ch = '\n' ∨ ch = '\r' ∨ ch = Char.ofNat 0x2028 ∨ ch = Char.ofNat 0x2029 then
      ch :: normalizePattern rest
    else
      '\\' :: ch :: rest

/-- Modelled from the spec: "literal strings are escaped character-by-character
so they match themselves literally", i.e. `pattern.replace(/(.)/g, "\\$1")`.
For comparison with the source's `normalizePattern` only. -/
def escapeEveryChar (s : Str) : Str :=
  s.flatMap (fun ch => ['\\', ch])

/-- JS regex `.`: any character but a line terminator. -/
def notTerm (ch : Char) : Bool :=
  !(ch == '\n' || ch == '\r' || ch == Char.ofNat 0x2028 || ch == Char.ofNat 0x2029)

/-- The lazy middle of `^OPEN(.+?)CLOSE`: walking the suffix that follows the
open delimiter, find the least `k ≥ 1` such that the first `k` characters
are all non-terminators and the close delimiter starts right after them. -/
def seekClose (c : Str) : Str → Nat → Option Nat
  | [], _ => none
  | ch :: rest, k =>
    if notTerm ch then
      if c.isPrefixOf rest then some (k + 1) else seekClose c rest (k + 1)
    else
      none

/-- `matcher.exec(text.slice(pos))` for `matcher = ^OPEN(.+?)CLOSE` with
literal delimiters: `some (raw.length, capture)` on a match. -/
def lazyExec (text : Str) (pos : Nat) (o c : Str) : Option (Nat × Str) :=
  if startsWithAt text o pos then
    match seekClose c (text.drop (pos + o.length)) 0 with
    | some k =>
      some (o.length + k + c.length,
        sliceL text (pos + o.length) (pos + o.length + k))
    | none => none
  else
    none

/-- The padding probe `close.test(text[pos])`: JS indexes one character — or
gets `undefined` past the end, which `test` coerces to the string
`"undefined"` and runs the regex against. -/
def closeTestAt (text : Str) (c : Str) (p : Nat) : Bool :=
  let probe := if h : p < text.length then [text.get ⟨p, h⟩] else "undefined".data
  (jsIndexOf probe c 0).isSome

/-- `formatRegex`'s scan state: cursor, emit boundary, fragments. -/
structure RState where
  pos : Nat
  lastPos : Nat
  io : List Str
deriving DecidableEq, Repr

/-- One transformer's try inside `formatRegex`'s `some` callback.  Note the
source pushes the pending slice *before* the padding probe; when the probe
fires, the transformed fragment is dropped, the cursor skips one further
character and the callback answers `false` with `lastPos` left behind. -/
def tryRegex (text : Str) (t : Transformer) (st : RState) : RState × Bool :=
  match lazyExec text st.pos t.open_ t.close with
  | none => (st, false)
  | some (rawLen, matchedText) =>
    if t.validate matchedText then
      let io1 := st.io ++ [sliceL text st.lastPos st.pos]
      let lp1 := st.pos
      let transformed := t.transformer matchedText
      let p1 := st.pos + rawLen
      if t.padding && closeTestAt text t.close p1 then
        ({ pos := p1 + 1, lastPos := lp1, io := io1 }, false)
      else
        ({ pos := p1, lastPos := p1, io := io1 ++ [transformed] }, true)
    else
      (st, false)

/-- `transformers.some(...)` of `formatRegex`. -/
def foldRegex (text : Str) : List Transformer → RState → RState × Bool
  | [], st => (st, false)
  | t :: rest, st =>
    match tryRegex text t st with
    | (st1, true) => (st1, true)
    | (st1, false) => foldRegex text rest st1

/-- `formatRegex`'s scan loop, plus the final flush of the pending slice
(which, unlike `format`, the source performs after its loop). -/
def regexGo (text : Str) (ts : List Transformer) : Nat → RState → Option Str
  | 0, _ => none
  | fuel + 1, st =>
    if st.pos < text.length then
      match foldRegex text ts st with
      | (st1, true) => regexGo text ts fuel st1
      | (st1, false) => regexGo text ts fuel { st1 with pos := st1.pos + 1 }
    else
      some (st.io ++ [sliceL text st.lastPos st.pos]).flatten

/-- `Formatter.formatRegex text`, given enough fuel. -/
def formatRegex (fuel : Nat) (ts : List Transformer) (text : Str) : Option Str :=
  regexGo text ts fuel ⟨0, 0, []⟩

/-- `formatRegex` on Lean string literals. -/
def formatRegexS (fuel : Nat) (ts : List Transformer) (s : String) :
    Option String :=
  (formatRegex fuel ts s.data).map String.mk


/-! ## Basic facts about the string primitives -/

theorem length_le_of_startsWithAt {text pat : Str} {i : Nat} (hne : pat ≠ [])
    (h : startsWithAt text pat i = true) : i + pat.length ≤ text.length := by
  unfold startsWithAt at h
  rw [List.isPrefixOf_iff_prefix] at h
  have h2 := h.length_le
  rw [List.length_drop] at h2
  have h3 : 0 < pat.length := List.length_pos.mpr hne
  omega

theorem startsWithAt_eq_false {text pat : Str} {i : Nat} (hne : pat ≠ [])
    (h : text.length < i + pat.length) : startsWithAt text pat i = false := by
  cases hs : startsWithAt text pat i
  · rfl
  · exact absurd (length_le_of_startsWithAt hne hs) (by omega)

theorem findIdx_bounds {pat s : Str} {j r : Nat} (h : findIdx pat s j = some r) :
    j ≤ r ∧ r + pat.length ≤ j + s.length := by
  induction s generalizing j with
  | nil => simp [findIdx] at h
  | cons ch rest ih =>
    rw [findIdx] at h
    split at h
    case isTrue hpre =>
      cases h
      have hl := (List.isPrefixOf_iff_prefix.mp hpre).length_le
      simp only [List.length_cons] at hl ⊢
      omega
    case isFalse =>
      have := ih h
      simp only [List.length_cons]
      omega

theorem jsIndexOf_bounds {text pat : Str} {i j : Nat} (hne : pat ≠ [])
    (h : jsIndexOf text pat i = some j) :
    i ≤ j ∧ j + pat.length ≤ text.length := by
  unfold jsIndexOf at h
  rw [if_neg (by simpa using hne)] at h
  have h1 := findIdx_bounds h
  have h2 : (text.drop i).length = text.length - i := List.length_drop ..
  have h3 : 0 < pat.length := List.length_pos.mpr hne
  omega

theorem untilSymbol_bounds {text c : Str} {i : Nat} (hne : c ≠ [])
    (hi : i ≤ text.length) :
    i ≤ untilSymbol text c i ∧ untilSymbol text c i ≤ text.length := by
  unfold untilSymbol
  cases h : jsIndexOf text c i with
  | none => simpa using hi
  | some j =>
    have := jsIndexOf_bounds hne h
    have : 0 < c.length := List.length_pos.mpr hne
    simp only [Option.getD_some]
    omega

/-! ## The padding loop completes for a nonempty closer

Every pass either exits or moves the cursor strictly forward while it stays
within the text, so `text.length + 2` fuel is always enough — which is why
`formatGo` can fix that fuel and remain exact for nonempty closers. -/

theorem padLoop_some {text o c : Str} (hne : c ≠ []) :
    ∀ (fuel p : Nat), p ≤ text.length → text.length + 2 ≤ fuel + p →
    ∃ r, padLoop fuel text o c p = some r ∧ p ≤ r ∧ r ≤ text.length := by
  intro fuel
  induction fuel with
  | zero => intro p hp hf; omega
  | succ fuel ih =>
    intro p hp hf
    rw [padLoop]
    cases hs : startsWithAt text c (p + 1) with
    | false => exact ⟨p, rfl, le_refl p, hp⟩
    | true =>
      have hcl := length_le_of_startsWithAt hne hs
      have hc1 : 0 < c.length := List.length_pos.mpr hne
      have hqb : p + 1 ≤ untilSymbol text c (p + o.length + 1) ∧
          untilSymbol text c (p + o.length + 1) ≤ text.length := by
        unfold untilSymbol
        cases hj : jsIndexOf text c (p + o.length + 1) with
        | none => simp only [Option.getD_none]; omega
        | some j =>
          have := jsIndexOf_bounds hne hj
          simp only [Option.getD_some]
          omega
      obtain ⟨r, hr, hpr, hrl⟩ := ih (untilSymbol text c (p + o.length + 1))
        hqb.2 (by omega)
      exact ⟨r, hr, by omega, hrl⟩

theorem findClose_some {text : Str} {t : Transformer} (hne : t.close ≠ [])
    {fp : Nat} (hfp : fp ≤ text.length) :
    ∃ r, findClose (text.length + 2) text t fp = some r ∧ fp ≤ r ∧
      r ≤ text.length := by
  unfold findClose
  have hu := untilSymbol_bounds hne hfp
  split
  · obtain ⟨r, hr, h1, h2⟩ := padLoop_some hne (text.length + 2)
      (untilSymbol text t.close fp) hu.2 (by omega)
    exact ⟨r, hr, le_trans hu.1 h1, h2⟩
  · exact ⟨untilSymbol text t.close fp, rfl, hu.1, hu.2⟩

/-! ## One attempt always answers, and every answer moves forward

With nonempty delimiters an attempt never runs out of padding fuel, a miss
leaves the cursor at or after where it was (and inside the text), and a hit
jumps strictly forward. -/

theorem attempt_total {text : Str} {t : Transformer} {pos : Nat}
    (ho : t.open_ ≠ []) (hc : t.close ≠ []) (hpos : pos ≤ text.length) :
    (∃ p, attempt (text.length + 2) text t pos = some (TryRes.miss p) ∧
      pos ≤ p ∧ p ≤ text.length) ∨
    (∃ f n, attempt (text.length + 2) text t pos =
      some (TryRes.hit f t.recursive n) ∧ pos + 1 ≤ n ∧ n ≤ text.length) := by
  cases hs : startsWithAt text t.open_ pos with
  | false =>
    left
    refine ⟨pos, ?_, le_refl _, hpos⟩
    unfold attempt
    rw [if_neg (by simp [hs])]
  | true =>
    have hfp : pos + t.open_.length ≤ text.length :=
      length_le_of_startsWithAt ho hs
    have ho1 : 0 < t.open_.length := List.length_pos.mpr ho
    obtain ⟨toPos, hfc, h1, h2⟩ := findClose_some hc hfp
    have key : attempt (text.length + 2) text t pos =
        if t.validate (sliceL text (pos + t.open_.length) toPos) then
          if startsWithAt text t.close toPos then
            some (TryRes.hit
              (t.transformer (sliceL text (pos + t.open_.length) toPos))
              t.recursive (toPos + t.close.length))
          else some (TryRes.miss toPos)
        else some (TryRes.miss (pos + t.open_.length)) := by
      unfold attempt
      rw [if_pos hs, hfc]
    cases hv : t.validate (sliceL text (pos + t.open_.length) toPos) with
    | false =>
      left
      refine ⟨pos + t.open_.length, ?_, by omega, hfp⟩
      rw [key, if_neg (by simp [hv])]
    | true =>
      cases hcl : startsWithAt text t.close toPos with
      | false =>
        left
        refine ⟨toPos, ?_, by omega, h2⟩
        rw [key, if_pos hv, if_neg (by simp [hcl])]
      | true =>
        right
        have hn := length_le_of_startsWithAt hc hcl
        refine ⟨t.transformer (sliceL text (pos + t.open_.length) toPos),
          toPos + t.close.length, ?_, by omega, hn⟩
        rw [key, if_pos hv, if_pos hcl]

theorem tryCands_total {text : Str} {cs : List Transformer}
    (h : ∀ t ∈ cs, t.open_ ≠ [] ∧ t.close ≠ []) :
    ∀ {pos : Nat}, pos ≤ text.length →
    (∃ p, tryCands (text.length + 2) text cs pos = some (TryRes.miss p) ∧
      pos ≤ p ∧ p ≤ text.length) ∨
    (∃ t ∈ cs, ∃ f n, tryCands (text.length + 2) text cs pos =
      some (TryRes.hit f t.recursive n) ∧ pos + 1 ≤ n ∧ n ≤ text.length) := by
  induction cs with
  | nil =>
    intro pos hpos
    left
    exact ⟨pos, rfl, le_refl _, hpos⟩
  | cons t rest ih =>
    intro pos hpos
    have ht := h t (List.mem_cons_self ..)
    rcases attempt_total ht.1 ht.2 hpos with ⟨p, ha, h1, h2⟩ |
      ⟨f, n, ha, h1, h2⟩
    · have ih2 := ih (fun u hu => h u (List.mem_cons_of_mem _ hu)) h2
      rcases ih2 with ⟨q, hq, hq1, hq2⟩ | ⟨u, hu, f, n, hr, hr1, hr2⟩
      · left
        refine ⟨q, ?_, le_trans h1 hq1, hq2⟩
        rw [tryCands, ha]
        exact hq
      · right
        refine ⟨u, List.mem_cons_of_mem _ hu, f, n, ?_, by omega, hr2⟩
        rw [tryCands, ha]
        exact hr
    · right
      refine ⟨t, List.mem_cons_self .., f, n, ?_, h1, h2⟩
      rw [tryCands, ha]

theorem mem_of_mem_candidatesAt {ts : List Transformer} {text : Str}
    {pos : Nat} {t : Transformer} (h : t ∈ candidatesAt ts text pos) :
    t ∈ ts := by
  unfold candidatesAt at h
  exact List.mem_of_mem_filter h

/-- The scan loop halts given `text.length + 1` fuel whenever no transformer
is recursive and all delimiters are nonempty: every iteration moves the
cursor strictly forward. -/
theorem formatGo_total {ts : List Transformer} {text : Str}
    (h : ∀ t ∈ ts, t.recursive = false ∧ t.open_ ≠ [] ∧ t.close ≠ []) :
    ∀ (fuel pos lastSlice : Nat) (io : List Str),
    text.length - pos < fuel →
    (formatGo fuel ts text pos lastSlice io).isSome = true := by
  intro fuel
  induction fuel with
  | zero => intro pos ls io hf; omega
  | succ fuel ih =>
    intro pos ls io hf
    rw [formatGo]
    by_cases hpos : pos < text.length
    · rw [if_pos hpos]
      have hsub : ∀ t ∈ candidatesAt ts text pos, t.open_ ≠ [] ∧
          t.close ≠ [] := by
        intro t htc
        have hm := mem_of_mem_candidatesAt htc
        exact ⟨(h t hm).2.1, (h t hm).2.2⟩
      rcases tryCands_total hsub (le_of_lt hpos) with ⟨p, hp, h1, h2⟩ |
        ⟨t, htm, f, n, hn, h1, h2⟩
      · rw [hp]
        exact ih (p + 1) (p + 1) _ (by omega)
      · rw [hn, (h t (mem_of_mem_candidatesAt htm)).1]
        exact ih n n _ (by omega)
    · rw [if_neg hpos]
      rfl

/-! ## Both scan loops on the empty registry -/

theorem formatGo_nil {text : Str} :
    ∀ (fuel pos : Nat) (io : List Str), text.length - pos < fuel →
    formatGo fuel [] text pos pos io = some (io.flatten ++ text.drop pos) := by
  intro fuel
  induction fuel with
  | zero => intro pos io hf; omega
  | succ fuel ih =>
    intro pos io hf
    rw [formatGo]
    by_cases hpos : pos < text.length
    · rw [if_pos hpos]
      show formatGo fuel [] text (pos + 1) (pos + 1)
        (io ++ [sliceL text pos (pos + 1)]) = _
      rw [ih (pos + 1) _ (by omega)]
      congr 1
      rw [List.flatten_append]
      simp only [List.flatten_cons, List.flatten_nil, List.append_nil,
        List.append_assoc]
      congr 1
      unfold sliceL
      rw [Nat.add_sub_cancel_left]
      exact List.drop_take_append_drop text pos 1
    · rw [if_neg hpos]
      rw [List.drop_eq_nil_of_le (by omega), List.append_nil]

theorem regexGo_nil {text : Str} :
    ∀ (fuel pos lp : Nat) (io : List Str), text.length - pos < fuel →
    regexGo text [] fuel ⟨pos, lp, io⟩ =
      some (io ++ [sliceL text lp (max pos text.length)]).flatten := by
  intro fuel
  induction fuel with
  | zero => intro pos lp io hf; omega
  | succ fuel ih =>
    intro pos lp io hf
    rw [regexGo]
    by_cases hpos : pos < text.length
    · rw [if_pos hpos]
      show regexGo text [] fuel ⟨pos + 1, lp, io⟩ = _
      rw [ih (pos + 1) lp io (by omega)]
      rw [Nat.max_eq_right (by omega : pos + 1 ≤ text.length),
        Nat.max_eq_right (by omega : pos ≤ text.length)]
    · rw [if_neg hpos, Nat.max_eq_left (by omega : text.length ≤ pos)]

/-! ## The claims -/

/-- C1 — the claim says that with padding on, `format("*a**b*")` never
applies the italic rewrite to the span `a**b`.  In fact the padding walk
*extends* the span past the doubled `**` (the whole of `a**b` becomes one
span), the rewrite is applied to it, and only the recursive re-format of the
rewritten fragment touches the inner `**`.  The first two conjuncts run the
scanner under `italic` and under `italicX` — which differs from `italic`
only at the argument `a**b` (third conjunct) — and get different outputs, so
the rewrite was applied to `a**b`. -/
theorem c1_padding_rewrites_doubled_span :
    formatS 64 [italic] "*a**b*" = some "<i>a<i></i>b</i>" ∧
    formatS 64 [italicX] "*a**b*" = some "X" ∧
    (∀ s : Str, s ≠ "a**b".data →
      italicX.transformer s = italic.transformer s) := by
  refine ⟨by decide, by decide, ?_⟩
  intro s hs
  simp only [italicX, italic]
  rw [if_neg hs]

/-- Instantiation of C1's third conjunct at a concrete span. -/
theorem c1_padding_rewrites_doubled_span_witness :
    italicX.transformer "z".data = italic.transformer "z".data :=
  c1_padding_rewrites_doubled_span.2.2 "z".data (by decide)

/-- C2 — registration order is priority: the candidate filter keeps an
earlier-registered matching transformer in front, `matches.some` tries the
front first, and a successful first attempt is exactly what the step emits;
concretely, bold before italic formats `**bold** and *italic*` as the spec
says. -/
theorem c2_registration_order_priority :
    (∀ (pf : Nat) (text : Str) (A : Transformer) (rest : List Transformer)
      (pos : Nat) (f : Str) (r : Bool) (n : Nat),
      attempt pf text A pos = some (TryRes.hit f r n) →
      tryCands pf text (A :: rest) pos = some (TryRes.hit f r n)) ∧
    (∀ (A : Transformer) (ts : List Transformer) (text : Str) (pos : Nat),
      jsIndexOf text A.open_ pos = some pos →
      candidatesAt (A :: ts) text pos = A :: candidatesAt ts text pos) ∧
    formatS 64 [bold, italic] "**bold** and *italic*" =
      some "<b>bold</b> and <i>italic</i>" := by
  refine ⟨?_, ?_, by decide⟩
  · intro pf text A rest pos f r n h
    rw [tryCands, h]
  · intro A ts text pos h
    simp [candidatesAt, List.filter_cons, h]

/-- Instantiation of C2's first conjunct: bold's successful attempt is what
the candidate fold returns even with italic behind it. -/
theorem c2_registration_order_priority_witness :
    tryCands 9 "**b**".data (bold :: [italic]) 0 =
      some (TryRes.hit "<b>b</b>".data true 5) :=
  c2_registration_order_priority.1 9 "**b**".data bold [italic] 0
    "<b>b</b>".data true 5 (by decide)

/-- C3 — a hit by a transformer with `recursive = false` appends the rewrite
output itself, with no re-scan of it (the scan step equation on the left has
no `formatGo` applied to the fragment); concretely the code transformer
shields `*raw*` from italic. -/
theorem c3_nonrecursive_output_verbatim :
    (∀ (fuel : Nat) (ts : List Transformer) (text : Str) (pos ls : Nat)
      (io : List Str) (f : Str) (n : Nat),
      pos < text.length →
      tryCands (text.length + 2) text (candidatesAt ts text pos) pos =
        some (TryRes.hit f false n) →
      formatGo (fuel + 1) ts text pos ls io =
        formatGo fuel ts text n n (io ++ [f])) ∧
    formatS 32 [codeT, italic] "`*raw*`" = some "<code>*raw*</code>" := by
  refine ⟨?_, by decide⟩
  intro fuel ts text pos ls io f n hpos htry
  rw [formatGo, if_pos hpos, htry]
  rfl

/-- Instantiation of C3's step equation on a one-step run of the code
transformer. -/
theorem c3_nonrecursive_output_verbatim_witness :
    formatGo 5 [codeT] "`x`".data 0 0 [] =
      formatGo 4 [codeT] "`x`".data 3 3 ["<code>x</code>".data] :=
  c3_nonrecursive_output_verbatim.1 4 [codeT] "`x`".data 0 0 []
    "<code>x</code>".data 3 (by decide) (by decide)

/-- C4 counterexample — an unterminated attempt does *not* leave the scan as
if nothing had happened: the italic attempt on `*xax` ends with the cursor
at the end of the input (4), not back at the opening `*` (0), and in the
registry `[italic, exT]` the `x…x` span that `exT` would rewrite at position
1 is never seen (`format` returns the input unchanged), although `exT` alone
on `xax` does fire. -/
theorem c4_unterminated_cursor_not_restored_cex :
    attempt 6 "*xax".data italic 0 = some (TryRes.miss 4) ∧
    (4 : Nat) ≠ 0 ∧
    formatS 16 [italic, exT] "*xax" = some "*xax" ∧
    formatS 16 [italic, exT] "xax" = some "[a]" :=
  ⟨by decide, by decide, by decide, by decide⟩

/-- C4 amended — when the opening delimiter matches but the closer never
occurs afterwards, the attempt fails with no replacement emitted, but the
cursor is left at the end of the input (where the closer search stopped)
rather than restored; positions between the opening delimiter and the end
are never rescanned.  The pending text, opening characters included, is then
flushed verbatim, so with a single italic transformer
`format("*unterminated") = "*unterminated"`. -/
theorem c4_unterminated_attempt_ends_scan :
    (∀ (pf : Nat) (text : Str) (t : Transformer) (pos : Nat),
      0 < pf → t.close ≠ [] →
      startsWithAt text t.open_ pos = true →
      jsIndexOf text t.close (pos + t.open_.length) = none →
      t.validate (sliceL text (pos + t.open_.length) text.length) = true →
      attempt pf text t pos = some (TryRes.miss text.length)) ∧
    formatS 20 [italic] "*unterminated" = some "*unterminated" := by
  refine ⟨?_, by decide⟩
  intro pf text t pos hpf hc hopen hfind hval
  have hc1 : 0 < t.close.length := List.length_pos.mpr hc
  have hfc : findClose pf text t (pos + t.open_.length) = some text.length := by
    unfold findClose untilSymbol
    rw [hfind]
    simp only [Option.getD_none]
    split
    · obtain ⟨pf1, rfl⟩ : ∃ k, pf = k + 1 := ⟨pf - 1, by omega⟩
      rw [padLoop, startsWithAt_eq_false hc (by omega)]
      simp
    · rfl
  have key : attempt pf text t pos =
      if t.validate (sliceL text (pos + t.open_.length) text.length) then
        if startsWithAt text t.close text.length then
          some (TryRes.hit
            (t.transformer (sliceL text (pos + t.open_.length) text.length))
            t.recursive (text.length + t.close.length))
        else some (TryRes.miss text.length)
      else some (TryRes.miss (pos + t.open_.length)) := by
    unfold attempt
    rw [if_pos hopen, hfc]
  rw [key, if_pos hval,
    startsWithAt_eq_false hc
      (by omega : text.length < text.length + t.close.length)]
  simp

/-- Instantiation of C4's amended statement on `*q`. -/
theorem c4_unterminated_attempt_ends_scan_witness :
    attempt 5 "*q".data italic 0 = some (TryRes.miss 2) :=
  c4_unterminated_attempt_ends_scan.1 5 "*q".data italic 0 (by decide)
    (by decide) (by decide) (by decide) (by decide)

/-- C5 counterexample — a `validate` veto restores the cursor to `fromPos`,
one opening delimiter *past* where the delimiter was found (on `*ab*` with
an always-vetoing `*` transformer the attempt ends at 1, not 0); and the
opening characters do not always stay in the output: in `[vetoAA, brk]` on
`aaaZc`, `vetoAA` is vetoed at position 2, `brk` then succeeds there, and
the output `[Z]` has dropped the opening `aa` entirely. -/
theorem c5_veto_restore_cex :
    attempt 6 "*ab*".data vetoStar 0 = some (TryRes.miss 1) ∧
    (1 : Nat) ≠ 0 ∧
    formatS 16 [vetoAA, brk] "aaaZc" = some "[Z]" :=
  ⟨by decide, by decide, by decide⟩

/-- C5 amended — on a `validate` veto the attempt fails with the cursor
restored to `fromPos = pos + open.length`, the position just past the
opening delimiter; the remaining transformers are then tried from that
shifted position (and the opening characters reach the output only if no
later candidate succeeds before the next flush). -/
theorem c5_veto_restores_to_after_open :
    ∀ (pf : Nat) (text : Str) (t : Transformer) (pos toPos : Nat),
      t.validate = (fun _ => false) →
      startsWithAt text t.open_ pos = true →
      findClose pf text t (pos + t.open_.length) = some toPos →
      attempt pf text t pos = some (TryRes.miss (pos + t.open_.length)) := by
  intro pf text t pos toPos hv hopen hfc
  unfold attempt
  rw [if_pos hopen, hfc, hv]
  simp

/-- Instantiation of C5's amended statement on `*pq*`. -/
theorem c5_veto_restores_to_after_open_witness :
    attempt 7 "*pq*".data vetoStar 0 = some (TryRes.miss 1) :=
  c5_veto_restores_to_after_open 7 "*pq*".data vetoStar 0 3 rfl (by decide)
    (by decide)

/-- C6 counterexample — the slow path is not equivalent to the fast path:
with only the italic transformer, on `*a**b*` the fast path rewrites the
padded span (`<i>a<i></i>b</i>`) while the regex path's padding probe
discards its own match and emits the input unchanged. -/
theorem c6_regex_path_differs_cex :
    formatRegexS 16 [italic] "*a**b*" = some "*a**b*" ∧
    formatS 64 [italic] "*a**b*" = some "<i>a<i></i>b</i>" ∧
    formatRegexS 16 [italic] "*a**b*" ≠ formatS 64 [italic] "*a**b*" :=
  ⟨by decide, by decide, by decide⟩

/-- C6 amended — `formatRegex` agrees with `format` on the empty registry
(both are the identity) and on simple singly-delimited inputs such as
`*a*`, but not in general: its padding probe discards matches followed by a
doubled delimiter and its recursion into rewritten fragments is disabled. -/
theorem c6_regex_path_partial_agreement :
    (∀ text : Str,
      formatRegex (text.length + 1) [] text =
        format (text.length + 1) [] text) ∧
    formatRegexS 8 [italic] "*a*" = some "<i>a</i>" ∧
    formatS 16 [italic] "*a*" = some "<i>a</i>" := by
  refine ⟨?_, by decide, by decide⟩
  intro text
  have h1 : format (text.length + 1) [] text = some text := by
    unfold format
    rw [formatGo_nil (text.length + 1) 0 [] (by omega)]
    simp
  have h2 : formatRegex (text.length + 1) [] text = some text := by
    unfold formatRegex
    rw [regexGo_nil (text.length + 1) 0 0 [] (by omega)]
    simp [sliceL, Nat.max_eq_right (Nat.zero_le text.length)]
  rw [h1, h2]

/-- Instantiation of C6's amended statement: the two paths agree on `hi`
with nothing registered. -/
theorem c6_regex_path_partial_agreement_witness :
    formatRegex 3 [] "hi".data = format 3 [] "hi".data :=
  c6_regex_path_partial_agreement.1 "hi".data

/-- C7 — `normalizePattern` escapes only the *first* character (the
source's `replace` regex has no `g` flag), so the literal `**` normalizes to
`\**` — a regex meaning "zero or more stars" — and not to the
character-by-character escape `\*\*` the spec describes. -/
theorem c7_normalize_escapes_first_char_only :
    normalizePattern "**".data = "\\**".data ∧
    escapeEveryChar "**".data = "\\*\\*".data ∧
    normalizePattern "**".data ≠ escapeEveryChar "**".data :=
  ⟨by decide, by decide, by decide⟩

/-- C8 counterexample — `addTransformer` with options carrying no
transformer callback and neither `open` nor `symbol` succeeds silently: the
entry is appended with its `open`, `close` and `transformer` fields all
undefined. -/
theorem c8_register_silently_accepts_cex :
    (addTransformer { name := "bad".data } []).length = 1 ∧
    ((addTransformer { name := "bad".data } []).map
      (fun r => (r.transformerR.isNone, r.openR.isNone, r.closeR.isNone))) =
      [(true, true, true)] :=
  ⟨by decide, by decide⟩

/-- C8 amended — registration performs no validation at all: every options
value, well-formed or not, is appended to the registry (the missing pieces
only fail later, inside `format`, or at compile time in TypeScript). -/
theorem c8_register_never_fails :
    ∀ (p : TransformerOptions) (ts : List RawTransformer),
      (addTransformer p ts).length = ts.length + 1 := by
  intro p ts
  simp [addTransformer]

/-- Instantiation of C8's amended statement. -/
theorem c8_register_never_fails_witness :
    (addTransformer { name := "w".data } []).length = 1 :=
  c8_register_never_fails { name := "w".data } []

/-- C9 — with no transformer registered the scan loop flushes one character
per iteration, so `format` is the identity on every input. -/
theorem c9_empty_registry_identity :
    ∀ text : Str, format (text.length + 1) [] text = some text := by
  intro text
  unfold format
  rw [formatGo_nil (text.length + 1) 0 [] (by omega)]
  simp

/-- Instantiation of C9 on `abc`. -/
theorem c9_empty_registry_identity_witness :
    format 4 [] "abc".data = some "abc".data :=
  c9_empty_registry_identity "abc".data

/-- C10 — if every registered transformer has `recursive = false` and
nonempty literal delimiters, `format` terminates on every input: every loop
iteration strictly increases the cursor, so `text.length + 1` fuel always
suffices. -/
theorem c10_literal_nonrecursive_terminates :
    ∀ (ts : List Transformer) (text : Str),
      (∀ t ∈ ts, t.recursive = false ∧ t.open_ ≠ [] ∧ t.close ≠ []) →
      (format (text.length + 1) ts text).isSome = true := by
  intro ts text h
  unfold format
  exact formatGo_total h (text.length + 1) 0 0 [] (by omega)

/-- Instantiation of C10 on the non-recursive code transformer. -/
theorem c10_literal_nonrecursive_terminates_witness :
    (format 4 [codeT] "`x`".data).isSome = true :=
  c10_literal_nonrecursive_terminates [codeT] "`x`".data (by
    intro t ht
    simp only [List.mem_singleton] at ht
    subst ht
    exact ⟨rfl, by decide, by decide⟩)
